import Mathlib

/-!
Verification of the DeskLink2 TPDD drive-emulator protocol engine
(`src/main.c`) against its specification.

Byte buffers are modelled as `List Nat` (each element a byte value).
C `uint8_t` / `uint16_t` arithmetic is made explicit with `% 256` /
`% 65536` wherever the C code can overflow.
-/

set_option maxRecDepth 8192

namespace Dlplus

/-! ## Drive constants

TPDD1 disk geometry, from the comment block above the FDC-mode handlers in
`src/main.c` ("sectors: 0-79, sector: 1293 bytes,
| LSC 1 byte | ID 12 bytes | DATA 1280 bytes |") and spec section 6
(TPDD1 image = 80 x (1+12+1280) bytes). -/

def SECTOR_ID_LEN : Nat := 12

def SECTOR_HEADER_LEN : Nat := 1 + SECTOR_ID_LEN

def SECTOR_DATA_LEN : Nat := 1280

def SECTOR_LEN : Nat := SECTOR_HEADER_LEN + SECTOR_DATA_LEN

def PDD1_SECTORS : Nat := 80

def TPDD_FILENAME_LEN : Nat := 24

/-- FDC-mode end-of-line / confirmation byte (0x0D), `FDC_CMD_EOL` in the code. -/
def FDC_CMD_EOL : Nat := 13

/-- Modelled from the spec: the logical-sector-size table
`FDC_LOGICAL_SECTOR_SIZE` lives in `constants.h`, which is not among the
source files; the spec fixes a 1280-byte data area divided in chunks "sized
by a per-record size code", and `ref/dme.txt` attests code 0 = 64 bytes.
The theorems below never depend on the individual values, only on the fact
that the size is looked up from the stored code. -/
def FDC_LOGICAL_SECTOR_SIZE : List Nat := [64, 80, 128, 256, 512, 1024, 1280]

/-! FDC-mode error codes, from the constants block shared with the previous
revision of `main.c` included in the sources. -/

def ERR_FDC_SUCCESS : Nat := 0

def ERR_FDC_LSN_LO : Nat := 17

def ERR_FDC_LSN_HI : Nat := 18

def ERR_FDC_PSN_HI : Nat := 19

def ERR_FDC_PARAM : Nat := 33

def ERR_FDC_READ : Nat := 161

/-! Operation-mode constants. -/

def OPR_CMD_SYNC : Nat := 0x5A

def RET_STD_FMT : Nat := 0x12

def ERR_SUCCESS : Nat := 0x00

def ERR_PARAM : Nat := 0x36

def MODE_FDC : Nat := 0

def MODE_OPR : Nat := 1

/-! ## Checksum (`checksum()` in `src/main.c`)

`b[0]` = cmd, `b[1]` = len, `b[2]..b[1+len]` = payload; the sum is taken in
a `uint16_t`, the loop bound `l = 2 + b[1]` in a `uint8_t`, and the final
one's complement is a `uint8_t`. -/

def checksum (b : List Nat) : Nat :=
  255 - ((b.take ((2 + b.getD 1 0) % 256)).sum % 65536 % 256)

/-- Standard Operation-mode return packet built by `ret_std()`:
`[0x12, 0x01, err, checksum]`. -/
def ret_std (err : Nat) : List Nat :=
  [RET_STD_FMT, 0x01, err, checksum [RET_STD_FMT, 0x01, err]]

/-! ## FDC-mode standard response (`ret_fdc_std()`)

`snprintf(b,9,"%02X%02X%04X",e,s,l)`: 8 upper-case ASCII hex characters. -/

def hexDigit (n : Nat) : Nat := if n < 10 then 48 + n else 55 + n

def hex2 (n : Nat) : List Nat := [hexDigit (n % 256 / 16), hexDigit (n % 16)]

def hex4 (n : Nat) : List Nat :=
  [hexDigit (n % 65536 / 4096), hexDigit (n / 256 % 16),
   hexDigit (n / 16 % 16), hexDigit (n % 16)]

def ret_fdc_std (e s l : Nat) : List Nat := hex2 e ++ hex2 s ++ hex4 l

/-! ## Operation-mode opcode decoding (`get_opr_cmd()`, after the checksum)

For model 2 (TPDD2), bit 6 of the FMT byte selects the bank and is cleared;
then opcodes 0x0E..0x12 are translated to their synonyms by adding 0x22. -/

def opr_decode (model bank b0 : Nat) : Nat × Nat :=
  let bank1 := if model = 2 then b0 >>> 6 &&& 1 else bank
  let c1 := if model = 2 then b0 &&& 0xBF else b0
  (bank1, if 0x0D < c1 ∧ c1 < 0x13 then c1 + 0x22 else c1)

/-- The checksum-check-and-dispatch tail of `get_opr_cmd()`: `gb` is the
fully framed request as laid out in the buffer (`gb[0]` = cmd, `gb[1]` = len,
payload, then the received checksum at `gb[gb[1]+2]`).  Returns the bytes
written to the client before dispatch and, when the frame is accepted,
the new bank value together with the opcode actually dispatched. -/
def get_opr_cmd_step (model bank : Nat) (gb : List Nat) : List Nat × Option (Nat × Nat) :=
  if checksum gb ≠ gb.getD (gb.getD 1 0 + 2) 0 then
    ([], none)
  else
    ([], some (opr_decode model bank (gb.getD 0 0)))

/-! ## Delete handler (`req_delete()`)

The handler issues `rmdir`/`unlink` on the host, ignores the OS result, and
always answers with the standard success packet.  The OS outcome enters the
model as `osOk` and the returned pair separates the attempted host action
from the protocol response. -/

inductive HostAction where
  | rmdirAct (name : List Nat) : HostAction
  | unlinkAct (name : List Nat) : HostAction
deriving DecidableEq

def req_delete (name : List Nat) (isDir : Bool) (osOk : Bool) :
    HostAction × List Nat :=
  ((if isDir then .rmdirAct name else .unlinkAct name), ret_std ERR_SUCCESS)

/-! ## FDC-mode sector commands

The image file is modelled as the flat list of its bytes.  `open_disk_image`
failure modes (missing file, write protection) are orthogonal to the claims
below, which concern the addressing and the two-stage transfer, so the
functions model the code path where the image opened successfully.  Short
reads (`read()` returning less than requested) appear as length checks on
the extracted slices. -/

/-- `FDC_LOGICAL_SECTOR_SIZE[lsc]` lookup (C array indexing; callers
establish `lsc ≤ 6`). -/
def lsc_len (lsc : Nat) : Nat := FDC_LOGICAL_SECTOR_SIZE.getD lsc 0

/-- Effect of `write()` of the bytes `d` at file offset `pos`. -/
def writeBytes (img : List Nat) (pos : Nat) (d : List Nat) : List Nat :=
  img.take pos ++ d ++ img.drop (pos + d.length)

/-- `req_fdc_read_id(p)`: read the 13-byte sector header, answer
success/size, then send the 12 ID bytes only when the single confirmation
byte read from the client equals `FDC_CMD_EOL`.  Returns the first response
and the raw data actually sent (if any). -/
def req_fdc_read_id (img : List Nat) (p confirm : Nat) :
    List Nat × Option (List Nat) :=
  let hdr := (img.drop (p * SECTOR_LEN)).take SECTOR_HEADER_LEN
  if hdr.length ≠ SECTOR_HEADER_LEN then (ret_fdc_std ERR_FDC_READ p 0, none)
  else
    let l := lsc_len (hdr.getD 0 0)
    (ret_fdc_std ERR_FDC_SUCCESS p l,
     if confirm = FDC_CMD_EOL then some (hdr.drop 1) else none)

/-- `req_fdc_read_sector(tp,tl)`: read the header, reject
`l*tl > SECTOR_DATA_LEN` with the logical-sector-number-high error, else
seek to `tp*SECTOR_LEN + SECTOR_HEADER_LEN + (tl-1)*l`, read one logical
sector and send it only on a `FDC_CMD_EOL` confirmation byte. -/
def req_fdc_read_sector (img : List Nat) (tp tl confirm : Nat) :
    List Nat × Option (List Nat) :=
  let hdr := (img.drop (tp * SECTOR_LEN)).take SECTOR_HEADER_LEN
  if hdr.length ≠ SECTOR_HEADER_LEN then (ret_fdc_std ERR_FDC_READ tp 0, none)
  else
    let l := lsc_len (hdr.getD 0 0)
    if l * tl > SECTOR_DATA_LEN then (ret_fdc_std ERR_FDC_LSN_HI tp l, none)
    else
      let s := tp * SECTOR_LEN + SECTOR_HEADER_LEN + (tl - 1) * l
      let d := (img.drop s).take l
      if d.length ≠ l then (ret_fdc_std ERR_FDC_READ tp 0, none)
      else
        (ret_fdc_std ERR_FDC_SUCCESS tp l,
         if confirm = FDC_CMD_EOL then some d else none)

/-- `req_fdc_write_id(tp)`: read the 1-byte LSC, answer success/size, then
read 12 bytes from the client (`cl`) and write them at the ID area — there
is no confirmation-byte check.  Returns `(responses, new image)`. -/
def req_fdc_write_id (img : List Nat) (tp : Nat) (cl : List Nat) :
    List (List Nat) × List Nat :=
  if ((img.drop (tp * SECTOR_LEN)).take 1).length ≠ 1 then
    ([ret_fdc_std ERR_FDC_READ tp 0], img)
  else
    let l := lsc_len (img.getD (tp * SECTOR_LEN) 0)
    ([ret_fdc_std ERR_FDC_SUCCESS tp l, ret_fdc_std ERR_FDC_SUCCESS tp l],
     writeBytes img (tp * SECTOR_LEN + 1) (cl.take SECTOR_ID_LEN))

/-- `req_fdc_write_sector(tp,tl)`: read the header, seek to the logical
sector, answer success/size, then read `l` bytes from the client and write
them — again with no confirmation-byte check. -/
def req_fdc_write_sector (img : List Nat) (tp tl : Nat) (cl : List Nat) :
    List (List Nat) × List Nat :=
  let hdr := (img.drop (tp * SECTOR_LEN)).take SECTOR_HEADER_LEN
  if hdr.length ≠ SECTOR_HEADER_LEN then ([ret_fdc_std ERR_FDC_READ tp 0], img)
  else
    let l := lsc_len (hdr.getD 0 0)
    let s := tp * SECTOR_LEN + SECTOR_HEADER_LEN + (tl - 1) * l
    ([ret_fdc_std ERR_FDC_SUCCESS tp l, ret_fdc_std ERR_FDC_SUCCESS tp l],
     writeBytes img s (cl.take l))

/-! ## FDC-mode command line parameter validation (`get_fdc_cmd()`)

After `atoi`, `p` and `l` are C `int`s (hence `Int` here), defaulting to
`p=0`, `l=1` when omitted. -/

def fdc_validate (p l : Int) : Option (List Nat) :=
  if p < 0 then some (ret_fdc_std ERR_FDC_PARAM 0xFF 0)
  else if p > 79 then some (ret_fdc_std ERR_FDC_PSN_HI 0xFF 0)
  else if l < 1 then some (ret_fdc_std ERR_FDC_LSN_LO p.toNat 0)
  else if l > 20 then some (ret_fdc_std ERR_FDC_LSN_HI p.toNat 0)
  else none

def FDC_READ_ID : Nat := 65

def FDC_READ_SECTOR : Nat := 82

def FDC_WRITE_ID : Nat := 66

def FDC_WRITE_SECTOR : Nat := 87

def ERR_FDC_COMMAND : Nat := 193

/-- The validate-then-dispatch tail of `get_fdc_cmd()` for the four sector
commands; every emitted chunk of bytes (responses and raw data) is collected
in order, and the second component is the image after the command. -/
def get_fdc_cmd_dispatch (img : List Nat) (c : Nat) (p l : Int)
    (confirm : Nat) (cl : List Nat) : List (List Nat) × List Nat :=
  match fdc_validate p l with
  | some r => ([r], img)
  | none =>
    if c = FDC_READ_ID then
      match req_fdc_read_id img p.toNat confirm with
      | (r, some d) => ([r, d], img)
      | (r, none) => ([r], img)
    else if c = FDC_READ_SECTOR then
      match req_fdc_read_sector img p.toNat l.toNat confirm with
      | (r, some d) => ([r, d], img)
      | (r, none) => ([r], img)
    else if c = FDC_WRITE_ID then req_fdc_write_id img p.toNat cl
    else if c = FDC_WRITE_SECTOR then req_fdc_write_sector img p.toNat l.toNat cl
    else ([ret_fdc_std ERR_FDC_COMMAND 0 0], img)

/-- Claim-side TPDD1 disk addressing, from the spec's words: byte offset
`physical * record_length + header_length + (logical - 1) * logical_size`. -/
def spec_sector_offset (p l s : Nat) : Nat :=
  p * SECTOR_LEN + SECTOR_HEADER_LEN + (l - 1) * s

/-! ## DME handshake detection

State shared between `req_fdc()`, `dirent_get_first()` and `get_fdc_cmd()`:
`in_dme` (the probe counter), `ch0` (the one-byte buffer `ch[0]`), and
`mode` (`operation_mode`).  The model covers TPDD1 (`model == 1`), the only
model on which the handshake is attempted (`req_fdc()` bails out early with
`ERR_PARAM` for model 2). -/

structure DmeState where
  in_dme : Nat
  ch0 : Nat
  mode : Nat
deriving DecidableEq

/-- `ret_dme_cwd()`: the non-standard 14-byte DME packet (opcode 0x12,
length 0x0B) around the 6-byte current-directory label. -/
def ret_dme_cwd (cwd : List Nat) : List Nat :=
  let b := [RET_STD_FMT, 0x0B, 0x00] ++ cwd.take 6 ++ [0, 0, 0, 0]
  b ++ [checksum b]

/-- One `req_fdc()` call (TPDD1).  `probe` is the byte obtained by the
fast-timeout read (`none` when the read timed out; the code pre-clears
`ch[0]` to 0, so a timeout and a received 0x00 byte are indistinguishable).
When the counter is below 2 and DME is enabled, the probe byte is stored in
`ch[0]` and the counter is bumped on a terminator byte; then either the DME
packet is emitted (counter above 1) or the drive genuinely switches to FDC
mode with no response. -/
def req_fdc_step (dme_en : Bool) (cwd : List Nat) (s : DmeState)
    (probe : Option Nat) : DmeState × List Nat :=
  let s1 := if s.in_dme < 2 ∧ dme_en = true then
      { s with ch0 := probe.getD 0,
               in_dme := if probe.getD 0 = FDC_CMD_EOL then s.in_dme + 1
                         else s.in_dme }
    else s
  if s1.in_dme > 1 then (s1, if dme_en then ret_dme_cwd cwd else [])
  else ({ s1 with mode := MODE_FDC }, [])

/-- `dirent_get_first()` ends with `in_dme = 0`. -/
def dirent_get_first_step (s : DmeState) : DmeState := { s with in_dme := 0 }

/-- `req_fdc_set_mode(m)` (FDC-mode `M` command). -/
def fdc_set_mode_step (s : DmeState) (m : Nat) : DmeState := { s with mode := m }

/-- The command-byte pickup at the top of `get_fdc_cmd()`: `ch[0]` is
cleared when it holds the 0xFF sentinel; a nonzero remainder is consumed as
the first command byte, otherwise the byte comes from the serial stream. -/
def fdc_first_byte (ch0 : Nat) (stream : List Nat) : Nat × List Nat :=
  let c0 := if ch0 = 0xFF then 0 else ch0
  if c0 ≠ 0 then (c0, stream) else (stream.headD 0, stream.tail)

/-- A sequence of switch-to-FDC requests, each followed by an FDC `M1`
set-mode command that returns to Operation mode (so the next request is
again handled by `req_fdc()`); collects the responses in order. -/
def run_fdc_requests (dme_en : Bool) (cwd : List Nat) (s : DmeState) :
    List (Option Nat) → DmeState × List (List Nat)
  | [] => (s, [])
  | pr :: rest =>
    let s1 := req_fdc_step dme_en cwd s pr
    let s2 := run_fdc_requests dme_en cwd (fdc_set_mode_step s1.1 MODE_OPR) rest
    (s2.1, s1.2 :: s2.2)

/-- Claim-side predicate: some two consecutive probes of the run both read
the FDC line terminator. -/
def hasConsecutiveEol : List (Option Nat) → Bool
  | some a :: some b :: rest =>
    (decide (a = FDC_CMD_EOL) && decide (b = FDC_CMD_EOL)) ||
      hasConsecutiveEol (some b :: rest)
  | _ :: rest => hasConsecutiveEol rest
  | [] => false

/-! ## Filename translation (`make_file_entry()` and
`collapse_padded_fname()`)

Host and client names are byte lists ('.' = 46, '_' = 95, '~' = 126,
' ' = 32).  The translation below follows the C code as executed, including
its `uint8_t` arithmetic and its operator precedence: in
`if (!f.flags&FE_FLAGS_DIR && strrchr(namep,'.'))` the `!` binds before
`&`, and in the tilde condition
`tildes && dp?dp>bl:il>ol || (f.flags&FE_FLAGS_DIR && il > ol-ext_len-1)`
the `?:` has the lowest precedence, so the whole condition parses as
`(tildes && dp) ? (dp > bl) : (il > ol || (dir && il > ol - ext_len - 1))`.
The out-of-bounds one-byte write `en[el-1]='~'` that the code performs when
`el == 0` lands outside the `en` buffer and never reaches the output; it is
modelled by `List.set` on the empty list (a no-op). -/

def FE_FLAGS_DIR : Nat := 1

/-- `TSDOS_PARENT_LABEL`, the 6 bytes of the default parent label. -/
def DME_PARENT_LABEL : List Nat := [94, 32, 32, 32, 32, 32]

/-- `TSDOS_DIR_LABEL "<>"`. -/
def DME_DIR_LABEL : List Nat := [60, 62]

/-- ASCII `toupper`. -/
def upch (c : Nat) : Nat := if 97 ≤ c ∧ c ≤ 122 then c - 32 else c

/-- `"%-*.*s", w, w, s`: truncate to `w` bytes, left-justify to width `w`
with spaces. -/
def padTrunc (w : Nat) (l : List Nat) : List Nat :=
  l.take w ++ List.replicate (w - l.length) 32

def lastDotAux : List Nat → Option Nat
  | [] => none
  | c :: rest =>
    match lastDotAux rest with
    | some i => some (i + 1)
    | none => if c = 46 then some 0 else none

/-- `strrchr(namep,'.') - namep`, conflating "no dot" and "dot at index 0"
into 0 exactly as the C code does (`dp` stays 0 in both cases). -/
def lastDotIdx (l : List Nat) : Nat := (lastDotAux l).getD 0

/-- The `client_fname` computed by `make_file_entry()`. -/
def make_client_fname (base_len ext_len : Nat)
    (pad_fn tildes upcase dme_en : Bool) (name : List Nat) (flags : Nat) :
    List Nat :=
  let il := name.length % 256
  let dp := if flags = 0 then lastDotIdx name else 0
  let ol := if base_len ≠ 0 then
      (base_len + if ext_len ≠ 0 then 1 + ext_len else 0) % 256
    else TPDD_FILENAME_LEN
  if ext_len = 0 then
    let c0 := (padTrunc ol (name.take ol)).take TPDD_FILENAME_LEN
    let c1 := if tildes = true ∧ ol < il then c0.set (ol - 1) 126 else c0
    if upcase then c1.map upch else c1
  else
    let bl := if dp ≠ 0 ∧ dp < base_len then dp else base_len
    let bn0 := (name.take bl).map fun c => if c = 46 then 95 else c
    let tcond := if tildes = true ∧ dp ≠ 0 then decide (bl < dp)
      else decide (ol < il) ||
        (decide (flags % 2 = 1) && decide ((ol : Int) - ext_len - 1 < (il : Int)))
    let bn1 := if tcond then bn0.set (bl - 1) 126 else bn0
    let x := (il + 256 - (dp + 1)) % 256
    let el := if dp ≠ 0 then min x ext_len else 0
    let en0 := (name.drop (dp + 1)).take el
    let en1 := if tildes = true ∧ el < x then en0.set (el - 1) 126 else en0
    let bn2 := if dme_en = true ∧ flags % 2 = 1 then
        (if name = [46, 46] then DME_PARENT_LABEL.take (min base_len 6) else bn1)
      else bn1
    let en2 := if dme_en = true ∧ flags % 2 = 1 then DME_DIR_LABEL else en1
    let el2 := if dme_en = true ∧ flags % 2 = 1 then ext_len else el
    let core := (if pad_fn then padTrunc base_len bn2 else bn2).take
      (TPDD_FILENAME_LEN - 1)
    let full := core ++ (if dp ≠ 0 ∨ pad_fn = true then [46] else []) ++
      en2.take el2
    if upcase then full.map upch else full

/-- The index `i` left by the loop
`for (i=base_len;i>1;i--) if (fname[i-1]!=' ') break;`. -/
def collapseIdx (f : List Nat) : Nat → Nat
  | 0 => 0
  | 1 => 1
  | n + 2 => if f.getD (n + 1) 0 ≠ 32 then n + 2 else collapseIdx f (n + 1)

/-- The C string formed by up to three bytes followed by a forced NUL. -/
def cstr3 (a b c : Nat) : List Nat :=
  if a = 0 then [] else if b = 0 then [a] else if c = 0 then [a, b] else [a, b, c]

/-- `collapse_padded_fname()`: strip the base field's trailing pad spaces;
a directory-marked name is cut at the marker, otherwise the dot and (up to)
two extension bytes are pulled in behind the stripped base. -/
def collapse_padded_fname (pad_fn : Bool) (base_len : Nat) (fname : List Nat) :
    List Nat :=
  if pad_fn = false ∨ base_len = 0 then fname
  else
    let i := collapseIdx fname base_len
    if fname.getD (base_len + 1) 0 = DME_DIR_LABEL.getD 0 0 ∧
        fname.getD (base_len + 2) 0 = DME_DIR_LABEL.getD 1 0 then
      fname.take i
    else
      fname.take i ++ cstr3 (fname.getD base_len 0) (fname.getD (base_len + 1) 0)
        (fname.getD (base_len + 2) 0)

/-- Trailing-space stripping, for talking about a padded field's content. -/
def stripTrailSp (l : List Nat) : List Nat :=
  (l.reverse.dropWhile (· = 32)).reverse

/-- The base segment of a translated name: everything before the first '.',
with trailing pad spaces removed. -/
def baseSegment (out : List Nat) : List Nat :=
  stripTrailSp (out.takeWhile (· ≠ 46))

/-- The extension segment of a translated name: everything after the '.'. -/
def extSegment (out : List Nat) : List Nat :=
  out.drop ((out.takeWhile (· ≠ 46)).length + 1)

end Dlplus

namespace Dlplus

/-- C1: for an Operation-mode block `[op, n] ++ payload` with `n ≤ 128` and
`payload.length = n`, the computed checksum is the bitwise one's complement
of the low 8 bits of the byte sum `op + n + payload.sum`. -/
theorem checksum_is_complement_of_byte_sum (op n : Nat) (payload : List Nat)
    (hlen : payload.length = n) (hn : n ≤ 128) :
    checksum (op :: n :: payload) = Nat.xor ((op + n + payload.sum) % 256) 255 := by
  have hcompl : ∀ x < 256, 255 - x = Nat.xor x 255 := by decide
  have hg : (op :: n :: payload).getD 1 0 = n := rfl
  have h2 : (2 + n) % 256 = 2 + n := Nat.mod_eq_of_lt (by omega)
  have htake : (op :: n :: payload).take (2 + n) = op :: n :: payload := by
    apply List.take_of_length_le
    simp [hlen]
    omega
  unfold checksum
  rw [hg, h2, htake]
  simp only [List.sum_cons]
  rw [Nat.mod_mod_of_dvd _ (by norm_num : (256:ℕ) ∣ 65536)]
  rw [hcompl _ (Nat.mod_lt _ (by norm_num))]
  rw [Nat.add_assoc]

/-- C1 witness. -/
theorem checksum_is_complement_of_byte_sum_witness :
    checksum [0x00, 0x03, 0x41, 0x42, 0x43] =
      Nat.xor ((0x00 + 0x03 + (0x41 + 0x42 + 0x43)) % 256) 255 := by
  have h := checksum_is_complement_of_byte_sum 0x00 0x03 [0x41, 0x42, 0x43]
    (by decide) (by decide)
  simpa using h

/-- C2 counterexample: the frame `[0x00, 0x00, 0x00]` (dirent request, len 0,
checksum byte 0x00, correct checksum 0xFF) fails the checksum check; the code
emits nothing at all — not the parameter-error standard response
`ret_std ERR_PARAM` that the claim requires. -/
theorem opr_bad_checksum_counterexample :
    get_opr_cmd_step 1 0 [0x00, 0x00, 0x00] = ([], none) ∧
      ([] : List Nat) ≠ ret_std ERR_PARAM := by
  constructor
  · decide
  · decide

/-- C2 amended: whenever a fully framed Operation-mode request fails its
checksum check, the frame is discarded with no response of any kind (matching
real-drive silence) and no handler is dispatched; the receiver simply returns
to scanning for the next frame. -/
theorem opr_bad_checksum_silent_discard (model bank : Nat) (gb : List Nat)
    (hbad : checksum gb ≠ gb.getD (gb.getD 1 0 + 2) 0) :
    get_opr_cmd_step model bank gb = ([], none) := by
  unfold get_opr_cmd_step
  exact if_pos hbad

/-- C2 amended witness. -/
theorem opr_bad_checksum_silent_discard_witness :
    checksum [0x00, 0x00, 0x00] ≠ [0x00, 0x00, 0x00].getD ([0x00, 0x00, 0x00].getD 1 0 + 2) 0 ∧
      get_opr_cmd_step 1 0 [0x00, 0x00, 0x00] = ([], none) :=
  ⟨by decide, opr_bad_checksum_silent_discard 1 0 [0x00, 0x00, 0x00] (by decide)⟩

/-- Claim-side alias rule, from the spec's words: opcodes strictly between
0x0D and 0x13 are offset to their documented synonyms by adding 0x22. -/
def opr_alias (c : Nat) : Nat := if 0x0D < c ∧ c < 0x13 then c + 0x22 else c

/-- C6: on a validated frame with opcode byte `b0`, for model TPDD2 bit 6 of
`b0` becomes the bank selector and is cleared (i.e. 64 is subtracted when bit
6 is set) before the alias rule is applied; for model TPDD1 the bank is left
alone and the alias rule is applied to `b0` directly; in both cases opcodes
outside (0x0D, 0x13) are dispatched unchanged. -/
theorem opr_decode_bank_and_alias (bank b0 : Nat) (hb : b0 < 256) :
    opr_decode 2 bank b0 =
      ((if b0.testBit 6 then 1 else 0),
        opr_alias (b0 - if b0.testBit 6 then 64 else 0)) ∧
    opr_decode 1 bank b0 = (bank, opr_alias b0) := by
  have hand : ∀ x < 256, x &&& 0xBF = x - (if Nat.testBit x 6 then 64 else 0) := by decide
  have hshift : ∀ x < 256, x >>> 6 &&& 1 = (if Nat.testBit x 6 then 1 else 0) := by decide
  refine ⟨?_, ?_⟩ <;> simp [opr_decode, opr_alias, hand b0 hb, hshift b0 hb]

/-- C6 witness: opcode byte 0x4E on TPDD2 selects bank 1, is stripped to 0x0E
and dispatched as 0x30; on TPDD1 it is dispatched unchanged. -/
theorem opr_decode_bank_and_alias_witness :
    opr_decode 2 7 0x4E = (1, 0x30) ∧ opr_decode 1 7 0x4E = (7, 0x4E) := by
  have h := opr_decode_bank_and_alias 7 0x4E (by decide)
  constructor
  · rw [h.1]; decide
  · rw [h.2]; decide

/-! ### Shared list helper lemmas -/

theorem getD_drop_z (l : List Nat) (a i : Nat) :
    (l.drop a).getD i 0 = l.getD (a + i) 0 := by
  simp [List.getD_eq_getElem?_getD, List.getElem?_drop]

theorem getD_take_z (l : List Nat) (n i : Nat) (h : i < n) :
    (l.take n).getD i 0 = l.getD i 0 := by
  simp [List.getD_eq_getElem?_getD, List.getElem?_take, h]

theorem writeBytes_extract (img d : List Nat) (pos : Nat) (hpos : pos ≤ img.length) :
    ((writeBytes img pos d).drop pos).take d.length = d := by
  unfold writeBytes
  have hlen : (img.take pos).length = pos := by
    simp [List.length_take]
    omega
  rw [List.append_assoc]
  calc ((img.take pos ++ (d ++ img.drop (pos + d.length))).drop pos).take d.length
      = ((img.take pos ++ (d ++ img.drop (pos + d.length))).drop
          (img.take pos).length).take d.length := by rw [hlen]
    _ = (d ++ img.drop (pos + d.length)).take d.length := by rw [List.drop_left]
    _ = d := List.take_left d _

/-- C7: for a TPDD1 FDC-mode sector-data read of `(tp, tl)` the byte range
accessed in the image is exactly `spec_sector_offset tp tl s` onward, where
`s` is looked up from the record's stored logical-size-code; in particular
`(0,1)` starts at `SECTOR_HEADER_LEN` and `(1,1)` at
`SECTOR_LEN + SECTOR_HEADER_LEN`; and `tl * s > SECTOR_DATA_LEN` answers the
logical-sector-number-high error without touching the data area. -/
theorem fdc_read_sector_addressing (img : List Nat) (tp tl s : Nat)
    (hs : s = lsc_len (img.getD (tp * SECTOR_LEN) 0))
    (hlsc : img.getD (tp * SECTOR_LEN) 0 ≤ 6)
    (hhdr : tp * SECTOR_LEN + SECTOR_HEADER_LEN ≤ img.length) :
    (tl * s ≤ SECTOR_DATA_LEN →
       spec_sector_offset tp tl s + s ≤ img.length →
       req_fdc_read_sector img tp tl FDC_CMD_EOL =
         (ret_fdc_std ERR_FDC_SUCCESS tp s,
          some ((img.drop (spec_sector_offset tp tl s)).take s))) ∧
    (SECTOR_DATA_LEN < tl * s →
       req_fdc_read_sector img tp tl FDC_CMD_EOL =
         (ret_fdc_std ERR_FDC_LSN_HI tp s, none)) ∧
    spec_sector_offset 0 1 s = SECTOR_HEADER_LEN ∧
    spec_sector_offset 1 1 s = SECTOR_LEN + SECTOR_HEADER_LEN := by
  have h13 : ((img.drop (tp * SECTOR_LEN)).take SECTOR_HEADER_LEN).length =
      SECTOR_HEADER_LEN := by
    simp only [List.length_take, List.length_drop, SECTOR_HEADER_LEN, SECTOR_ID_LEN]
    have : 13 ≤ img.length - tp * SECTOR_LEN := by
      simp only [SECTOR_HEADER_LEN, SECTOR_ID_LEN] at hhdr
      omega
    omega
  have hgd : ((img.drop (tp * SECTOR_LEN)).take SECTOR_HEADER_LEN).getD 0 0 =
      img.getD (tp * SECTOR_LEN) 0 := by
    rw [getD_take_z _ _ _ (by norm_num [SECTOR_HEADER_LEN, SECTOR_ID_LEN]), getD_drop_z]
    norm_num
  refine ⟨?_, ?_, ?_, ?_⟩
  · intro hfit hoff
    unfold req_fdc_read_sector
    rw [if_neg (by rw [h13]; exact fun h => h rfl)]
    rw [hgd, ← hs]
    rw [if_neg (by rw [Nat.mul_comm]; omega)]
    have hdlen : ((img.drop (tp * SECTOR_LEN + SECTOR_HEADER_LEN + (tl - 1) * s)).take
        s).length = s := by
      simp only [List.length_take, List.length_drop]
      unfold spec_sector_offset at hoff
      omega
    rw [if_neg (by rw [hdlen]; exact fun h => h rfl)]
    unfold spec_sector_offset
    simp
  · intro hover
    unfold req_fdc_read_sector
    rw [if_neg (by rw [h13]; exact fun h => h rfl)]
    rw [hgd, ← hs]
    rw [if_pos (by rw [Nat.mul_comm]; omega)]
  · unfold spec_sector_offset
    norm_num
  · unfold spec_sector_offset
    norm_num

/-- C7 witness: a zero-filled 77-byte image has logical-size-code 0 (64-byte
logical sectors); reading `(0,1)` returns the 64 bytes at offset 13, and
reading `(0,21)` is rejected with the logical-sector-number-high error. -/
theorem fdc_read_sector_addressing_witness :
    req_fdc_read_sector (List.replicate 77 0) 0 1 FDC_CMD_EOL =
      (ret_fdc_std ERR_FDC_SUCCESS 0 64, some (List.replicate 64 0)) ∧
    req_fdc_read_sector (List.replicate 77 0) 0 21 FDC_CMD_EOL =
      (ret_fdc_std ERR_FDC_LSN_HI 0 64, none) := by
  have h1 := fdc_read_sector_addressing (List.replicate 77 0) 0 1 64
    (by decide) (by decide) (by decide)
  have h2 := fdc_read_sector_addressing (List.replicate 77 0) 0 21 64
    (by decide) (by decide) (by decide)
  constructor
  · rw [h1.1 (by decide) (by decide)]
    decide
  · exact h2.2.1 (by decide)

/-- C8 counterexample: after the first success response of an FDC write-ID
command the next byte from the client is 0x41 — not the 0x0D terminator —
yet the transfer is not aborted: all 12 bytes are consumed as ID data and
written into the image. -/
theorem fdc_write_no_confirm_counterexample :
    (65 : Nat) ≠ FDC_CMD_EOL ∧
    req_fdc_write_id (List.replicate 14 0) 0
        [65, 66, 67, 68, 69, 70, 71, 72, 73, 74, 75, 76] =
      ([ret_fdc_std ERR_FDC_SUCCESS 0 64, ret_fdc_std ERR_FDC_SUCCESS 0 64],
       [0, 65, 66, 67, 68, 69, 70, 71, 72, 73, 74, 75, 76, 0]) ∧
    [0, 65, 66, 67, 68, 69, 70, 71, 72, 73, 74, 75, 76, 0] ≠
      List.replicate (14 : Nat) (0 : Nat) := by
  refine ⟨by decide, by decide, by decide⟩

/-- C8 amended: the confirmation-byte gate exists only for the two read
commands — read-ID and read-sector send their raw data only when the byte
received after the first response equals `FDC_CMD_EOL`, and silently send
nothing otherwise; write-ID and write-sector accept the following client
bytes as raw data unconditionally and write them into the image. -/
theorem fdc_two_stage_confirm_gate (img cl : List Nat) (p tl confirm : Nat)
    (hc : confirm ≠ FDC_CMD_EOL) :
    (req_fdc_read_id img p confirm).2 = none ∧
    (req_fdc_read_sector img p tl confirm).2 = none ∧
    (p * SECTOR_LEN + 1 ≤ img.length → cl.length = SECTOR_ID_LEN →
       ((req_fdc_write_id img p cl).2.drop (p * SECTOR_LEN + 1)).take
           SECTOR_ID_LEN = cl) ∧
    (p * SECTOR_LEN + SECTOR_HEADER_LEN ≤ img.length →
       cl.length = lsc_len (img.getD (p * SECTOR_LEN) 0) →
       spec_sector_offset p tl cl.length ≤ img.length →
       ((req_fdc_write_sector img p tl cl).2.drop
           (spec_sector_offset p tl cl.length)).take cl.length = cl) := by
  refine ⟨?_, ?_, ?_, ?_⟩
  · unfold req_fdc_read_id
    by_cases h : ((img.drop (p * SECTOR_LEN)).take SECTOR_HEADER_LEN).length ≠
        SECTOR_HEADER_LEN
    · rw [if_pos h]
    · rw [if_neg h]
      simp [hc]
  · unfold req_fdc_read_sector
    by_cases h : ((img.drop (p * SECTOR_LEN)).take SECTOR_HEADER_LEN).length ≠
        SECTOR_HEADER_LEN
    · rw [if_pos h]
    · rw [if_neg h]
      by_cases h2 : lsc_len (((img.drop (p * SECTOR_LEN)).take
          SECTOR_HEADER_LEN).getD 0 0) * tl > SECTOR_DATA_LEN
      · rw [if_pos h2]
      · rw [if_neg h2]
        by_cases h3 : ((img.drop (p * SECTOR_LEN + SECTOR_HEADER_LEN +
            (tl - 1) * lsc_len (((img.drop (p * SECTOR_LEN)).take
              SECTOR_HEADER_LEN).getD 0 0))).take
            (lsc_len (((img.drop (p * SECTOR_LEN)).take
              SECTOR_HEADER_LEN).getD 0 0))).length ≠
            lsc_len (((img.drop (p * SECTOR_LEN)).take SECTOR_HEADER_LEN).getD 0 0)
        · rw [if_pos h3]
        · rw [if_neg h3]
          simp [hc]
  · intro hpos hcl
    have hone : ((img.drop (p * SECTOR_LEN)).take 1).length = 1 := by
      simp only [List.length_take, List.length_drop]
      omega
    unfold req_fdc_write_id
    rw [if_neg (by rw [hone]; exact fun h => h rfl)]
    have htk : cl.take SECTOR_ID_LEN = cl := List.take_of_length_le (by omega)
    have := writeBytes_extract img (cl.take SECTOR_ID_LEN) (p * SECTOR_LEN + 1)
      (by omega)
    rw [htk] at this
    rw [← hcl]
    simpa using this
  · intro hpos hcl hoff
    have h13 : ((img.drop (p * SECTOR_LEN)).take SECTOR_HEADER_LEN).length =
        SECTOR_HEADER_LEN := by
      simp only [List.length_take, List.length_drop, SECTOR_HEADER_LEN, SECTOR_ID_LEN]
      simp only [SECTOR_HEADER_LEN, SECTOR_ID_LEN] at hpos
      omega
    have hgd : ((img.drop (p * SECTOR_LEN)).take SECTOR_HEADER_LEN).getD 0 0 =
        img.getD (p * SECTOR_LEN) 0 := by
      rw [getD_take_z _ _ _ (by norm_num [SECTOR_HEADER_LEN, SECTOR_ID_LEN]), getD_drop_z]
      norm_num
    unfold req_fdc_write_sector
    rw [if_neg (by rw [h13]; exact fun h => h rfl)]
    rw [hgd, ← hcl]
    have htk : cl.take cl.length = cl := List.take_of_length_le (by omega)
    have := writeBytes_extract img (cl.take cl.length)
      (p * SECTOR_LEN + SECTOR_HEADER_LEN + (tl - 1) * cl.length)
      (by unfold spec_sector_offset at hoff; omega)
    rw [htk] at this
    unfold spec_sector_offset
    simpa using this

/-- C8 amended witness. -/
theorem fdc_two_stage_confirm_gate_witness :
    (req_fdc_read_id (List.replicate 14 0) 0 65).2 = none ∧
    ((req_fdc_write_id (List.replicate 14 0) 0
        [65, 66, 67, 68, 69, 70, 71, 72, 73, 74, 75, 76]).2.drop 1).take
        SECTOR_ID_LEN = [65, 66, 67, 68, 69, 70, 71, 72, 73, 74, 75, 76] := by
  have h := fdc_two_stage_confirm_gate (List.replicate 14 0)
    [65, 66, 67, 68, 69, 70, 71, 72, 73, 74, 75, 76] 0 1 65 (by decide)
  exact ⟨h.1, by simpa using h.2.2.1 (by decide) (by decide)⟩

/-- C9 counterexample: the command `R99,1` (physical sector 99, out of range)
is answered with the physical-sector-number-high error whose status/data
field is always 0xFF; in a session whose most recent valid physical sector
was, e.g., 5, the claim instead requires that 5 be reported there. -/
theorem fdc_param_status_counterexample :
    fdc_validate 99 1 = some (ret_fdc_std ERR_FDC_PSN_HI 0xFF 0) ∧
    get_fdc_cmd_dispatch [7, 7, 7] FDC_READ_SECTOR 99 1 FDC_CMD_EOL [] =
      ([ret_fdc_std ERR_FDC_PSN_HI 0xFF 0], [7, 7, 7]) ∧
    ret_fdc_std ERR_FDC_PSN_HI 0xFF 0 ≠ ret_fdc_std ERR_FDC_PSN_HI 5 0 := by
  refine ⟨by decide, by decide, by decide⟩

/-- C9 amended: an out-of-range physical (not 0..79) or logical (not 1..20)
sector parameter is answered with the specific out-of-range error response
before any disk access (the image is untouched and no handler runs); the
status/data field carries 0xFF for the physical-sector errors and the
current command's already-validated physical sector for the logical-sector
errors. -/
theorem fdc_param_validation_step (img cl : List Nat) (c : Nat) (p l : Int)
    (confirm : Nat) :
    (p < 0 → get_fdc_cmd_dispatch img c p l confirm cl =
       ([ret_fdc_std ERR_FDC_PARAM 0xFF 0], img)) ∧
    (0 ≤ p → 79 < p → get_fdc_cmd_dispatch img c p l confirm cl =
       ([ret_fdc_std ERR_FDC_PSN_HI 0xFF 0], img)) ∧
    (0 ≤ p → p ≤ 79 → l < 1 → get_fdc_cmd_dispatch img c p l confirm cl =
       ([ret_fdc_std ERR_FDC_LSN_LO p.toNat 0], img)) ∧
    (0 ≤ p → p ≤ 79 → 1 ≤ l → 20 < l → get_fdc_cmd_dispatch img c p l confirm cl =
       ([ret_fdc_std ERR_FDC_LSN_HI p.toNat 0], img)) := by
  refine ⟨?_, ?_, ?_, ?_⟩
  · intro h1
    unfold get_fdc_cmd_dispatch fdc_validate
    simp [h1]
  · intro h1 h2
    unfold get_fdc_cmd_dispatch fdc_validate
    simp only [if_neg (by omega : ¬ p < 0), if_pos h2]
  · intro h1 h2 h3
    unfold get_fdc_cmd_dispatch fdc_validate
    simp only [if_neg (by omega : ¬ p < 0), if_neg (by omega : ¬ p > 79), if_pos h3]
  · intro h1 h2 h3 h4
    unfold get_fdc_cmd_dispatch fdc_validate
    simp only [if_neg (by omega : ¬ p < 0), if_neg (by omega : ¬ p > 79),
      if_neg (by omega : ¬ l < 1), if_pos h4]

/-- C9 amended witness. -/
theorem fdc_param_validation_step_witness :
    get_fdc_cmd_dispatch [7, 7, 7] FDC_READ_SECTOR 99 1 FDC_CMD_EOL [] =
      ([ret_fdc_std ERR_FDC_PSN_HI 0xFF 0], [7, 7, 7]) ∧
    get_fdc_cmd_dispatch [7, 7, 7] FDC_READ_SECTOR 5 21 FDC_CMD_EOL [] =
      ([ret_fdc_std ERR_FDC_LSN_HI 5 0], [7, 7, 7]) := by
  constructor
  · exact (fdc_param_validation_step [7, 7, 7] [] FDC_READ_SECTOR 99 1
      FDC_CMD_EOL).2.1 (by decide) (by decide)
  · have h := (fdc_param_validation_step [7, 7, 7] [] FDC_READ_SECTOR 5 21
      FDC_CMD_EOL).2.2.2 (by decide) (by decide) (by decide) (by decide)
    simpa using h

theorem ret_dme_cwd_ne_nil (cwd : List Nat) : ret_dme_cwd cwd ≠ [] := by
  unfold ret_dme_cwd
  simp

/-- C3 counterexample: starting fresh after a get-first, three switch-to-FDC
requests whose probes read 0x0D, 0x5A, 0x0D (no two *consecutive* probes
read the terminator) still end in the DME response on the third request; and
a probe that reads the byte 0xFF (which is not 0x0D) does not hand that byte
to the FDC command reader — 0xFF is the `ch[0]` sentinel and is dropped. -/
theorem dme_detection_counterexample :
    (run_fdc_requests true [48, 58, 32, 32, 32, 32] ⟨0, 0, MODE_OPR⟩
        [some 13, some 90, some 13]).2 =
      [[], [], ret_dme_cwd [48, 58, 32, 32, 32, 32]] ∧
    hasConsecutiveEol [some 13, some 90, some 13] = false ∧
    ret_dme_cwd [48, 58, 32, 32, 32, 32] ≠ [] ∧
    fdc_first_byte (req_fdc_step true [48, 58, 32, 32, 32, 32]
        ⟨0, 0, MODE_OPR⟩ (some 0xFF)).1.ch0 [65, 49, 13] ≠
      (0xFF, [65, 49, 13]) := by
  refine ⟨by decide, by decide, by decide, by decide⟩

/-- C3 amended: (a) every get-first resets the probe counter to 0;
(b) a switch-to-FDC request bumps the counter exactly when the counter is
below 2, DME is enabled and the probe byte is the terminator 0x0D — the
count is monotone within a listing cycle, consecutiveness is not required;
(c) the request is answered with the DME packet exactly when DME is enabled
and the (updated) counter exceeds 1, and otherwise performs a genuine
switch to FDC mode; (d) a probe byte other than 0x0D, 0x00 and 0xFF is
handed to the FDC command reader as the first byte of the next FDC
command. -/
theorem dme_detection_behavior (dme_en : Bool) (cwd : List Nat) (s : DmeState)
    (probe : Option Nat) (b : Nat) (stream : List Nat)
    (hlt : s.in_dme < 2) :
    (dirent_get_first_step s).in_dme = 0 ∧
    (req_fdc_step dme_en cwd s probe).1.in_dme =
      s.in_dme + (if dme_en = true ∧ probe.getD 0 = FDC_CMD_EOL then 1 else 0) ∧
    ((req_fdc_step dme_en cwd s probe).2 = ret_dme_cwd cwd ↔
      dme_en = true ∧ 1 < (req_fdc_step dme_en cwd s probe).1.in_dme) ∧
    (req_fdc_step dme_en cwd s probe).1.mode =
      (if 1 < (req_fdc_step dme_en cwd s probe).1.in_dme then s.mode
       else MODE_FDC) ∧
    (dme_en = true → b ≠ FDC_CMD_EOL → b ≠ 0 → b ≠ 0xFF →
      fdc_first_byte (req_fdc_step dme_en cwd s (some b)).1.ch0 stream =
        (b, stream)) := by
  obtain ⟨n, c0, m⟩ := s
  have hn2 : n < 2 := hlt
  cases dme_en with
  | false =>
    have hstep : ∀ pr, req_fdc_step false cwd ⟨n, c0, m⟩ pr =
        (⟨n, c0, MODE_FDC⟩, []) := by
      intro pr
      unfold req_fdc_step
      simp [show ¬ 1 < n by omega]
    refine ⟨rfl, ?_, ?_, ?_, ?_⟩
    · rw [hstep probe]
      simp
    · rw [hstep probe]
      simp [eq_comm, ret_dme_cwd_ne_nil cwd]
    · rw [hstep probe]
      simp [show ¬ 1 < n by omega]
    · intro hd
      exact absurd hd (by simp)
  | true =>
    interval_cases n
    · by_cases he : probe.getD 0 = FDC_CMD_EOL
      · have hstep : req_fdc_step true cwd ⟨0, c0, m⟩ probe =
            (⟨1, probe.getD 0, MODE_FDC⟩, []) := by
          unfold req_fdc_step
          simp [he]
        refine ⟨rfl, ?_, ?_, ?_, ?_⟩
        · rw [hstep]
          simp [he]
        · rw [hstep]
          simp [eq_comm, ret_dme_cwd_ne_nil cwd]
        · rw [hstep]
          simp
        · intro hd hne h0 hff
          have hstep2 : req_fdc_step true cwd ⟨0, c0, m⟩ (some b) =
              (⟨0, b, MODE_FDC⟩, []) := by
            unfold req_fdc_step
            simp [hne]
          rw [hstep2]
          unfold fdc_first_byte
          simp [h0, hff]
      · have hstep : req_fdc_step true cwd ⟨0, c0, m⟩ probe =
            (⟨0, probe.getD 0, MODE_FDC⟩, []) := by
          unfold req_fdc_step
          simp [he]
        refine ⟨rfl, ?_, ?_, ?_, ?_⟩
        · rw [hstep]
          simp [he]
        · rw [hstep]
          simp [eq_comm, ret_dme_cwd_ne_nil cwd]
        · rw [hstep]
          simp
        · intro hd hne h0 hff
          have hstep2 : req_fdc_step true cwd ⟨0, c0, m⟩ (some b) =
              (⟨0, b, MODE_FDC⟩, []) := by
            unfold req_fdc_step
            simp [hne]
          rw [hstep2]
          unfold fdc_first_byte
          simp [h0, hff]
    · by_cases he : probe.getD 0 = FDC_CMD_EOL
      · have hstep : req_fdc_step true cwd ⟨1, c0, m⟩ probe =
            (⟨2, probe.getD 0, m⟩, ret_dme_cwd cwd) := by
          unfold req_fdc_step
          simp [he]
        refine ⟨rfl, ?_, ?_, ?_, ?_⟩
        · rw [hstep]
          simp [he]
        · rw [hstep]
          simp
        · rw [hstep]
          simp
        · intro hd hne h0 hff
          have hstep2 : req_fdc_step true cwd ⟨1, c0, m⟩ (some b) =
              (⟨1, b, MODE_FDC⟩, []) := by
            unfold req_fdc_step
            simp [hne]
          rw [hstep2]
          unfold fdc_first_byte
          simp [h0, hff]
      · have hstep : req_fdc_step true cwd ⟨1, c0, m⟩ probe =
            (⟨1, probe.getD 0, MODE_FDC⟩, []) := by
          unfold req_fdc_step
          simp [he]
        refine ⟨rfl, ?_, ?_, ?_, ?_⟩
        · rw [hstep]
          simp [he]
        · rw [hstep]
          simp [eq_comm, ret_dme_cwd_ne_nil cwd]
        · rw [hstep]
          simp
        · intro hd hne h0 hff
          have hstep2 : req_fdc_step true cwd ⟨1, c0, m⟩ (some b) =
              (⟨1, b, MODE_FDC⟩, []) := by
            unfold req_fdc_step
            simp [hne]
          rw [hstep2]
          unfold fdc_first_byte
          simp [h0, hff]

/-- C3 amended witness. -/
theorem dme_detection_behavior_witness :
    (dirent_get_first_step ⟨1, 13, MODE_OPR⟩).in_dme = 0 ∧
    (req_fdc_step true [48, 58, 32, 32, 32, 32] ⟨1, 13, MODE_OPR⟩
        (some 13)).1.in_dme = 2 ∧
    fdc_first_byte (req_fdc_step true [48, 58, 32, 32, 32, 32]
        ⟨0, 0, MODE_OPR⟩ (some 82)).1.ch0 [49, 13] = (82, [49, 13]) := by
  have h1 := dme_detection_behavior true [48, 58, 32, 32, 32, 32]
    ⟨1, 13, MODE_OPR⟩ (some 13) 82 [49, 13] (by decide)
  have h2 := dme_detection_behavior true [48, 58, 32, 32, 32, 32]
    ⟨0, 0, MODE_OPR⟩ (some 82) 82 [49, 13] (by decide)
  refine ⟨h1.1, ?_, h2.2.2.2.2 rfl (by decide) (by decide) (by decide)⟩
  rw [h1.2.1]
  decide

/-- C4 counterexample (profile 6.2, padded): the dotless host name
"ABCDEFGHIJ" exceeds the whole output width, and the translation writes a
'~' into the base even though tilde-marking is disabled; conversely the
dotless name "ABCDEFG" has a base exceeding `base_len = 6`, yet with
tilde-marking enabled the translation truncates it to "ABCDEF" with no
'~'. -/
theorem tilde_marking_counterexample :
    make_client_fname 6 2 true false false false
        [65, 66, 67, 68, 69, 70, 71, 72, 73, 74] 0 =
      [65, 66, 67, 68, 69, 126, 46] ∧
    (126 ∈ make_client_fname 6 2 true false false false
        [65, 66, 67, 68, 69, 70, 71, 72, 73, 74] 0) ∧
    make_client_fname 6 2 true true false false
        [65, 66, 67, 68, 69, 70, 71] 0 = [65, 66, 67, 68, 69, 70, 46] ∧
    (126 ∉ make_client_fname 6 2 true true false false
        [65, 66, 67, 68, 69, 70, 71] 0) := by
  refine ⟨by decide, by decide, by decide, by decide⟩

/-- C5 counterexample (k85 profile: 6.2, padded, upcased): the dotless name
"FOO" comes back from collapse∘translate as "FOO." (a trailing dot is
added); the lowercase name "foo.co" comes back as "FOO.CO"; and the
multi-dot name "A.B.C" comes back as "A_B.C" — none of them required
truncation. -/
theorem collapse_translate_counterexample :
    collapse_padded_fname true 6
        (make_client_fname 6 2 true true true true [70, 79, 79] 0) =
      [70, 79, 79, 46] ∧
    [70, 79, 79, 46] ≠ [70, 79, 79] ∧
    collapse_padded_fname true 6
        (make_client_fname 6 2 true true true true
          [102, 111, 111, 46, 99, 111] 0) = [70, 79, 79, 46, 67, 79] ∧
    [70, 79, 79, 46, 67, 79] ≠ [102, 111, 111, 46, 99, 111] ∧
    collapse_padded_fname true 6
        (make_client_fname 6 2 true true true true [65, 46, 66, 46, 67] 0) =
      [65, 95, 66, 46, 67] ∧
    [65, 95, 66, 46, 67] ≠ [65, 46, 66, 46, 67] := by
  refine ⟨by decide, by decide, by decide, by decide, by decide, by decide⟩

/-! ### Support lemmas for the filename translation theorems -/

theorem lastDotAux_none_iff (l : List Nat) : lastDotAux l = none ↔ 46 ∉ l := by
  induction l with
  | nil => simp [lastDotAux]
  | cons c rest ih =>
    unfold lastDotAux
    cases hr : lastDotAux rest with
    | some i =>
      simp only []
      constructor
      · intro h
        cases h
      · intro h
        exact absurd (ih.mpr (fun hm => h (List.mem_cons_of_mem _ hm))) (by simp [hr])
    | none =>
      simp only []
      by_cases hc : c = 46
      · simp [hc]
      · simp only [if_neg hc]
        simp only [List.mem_cons, not_or]
        constructor
        · intro _
          exact ⟨fun h => hc h.symm, ih.mp hr⟩
        · intro _
          trivial

theorem lastDotAux_append (b e : List Nat) (he : 46 ∉ e) :
    lastDotAux (b ++ 46 :: e) = some b.length := by
  induction b with
  | nil =>
    simp only [List.nil_append, lastDotAux, (lastDotAux_none_iff e).mpr he]
    simp
  | cons c rest ih =>
    have hm : lastDotAux (c :: (rest ++ 46 :: e)) =
        match lastDotAux (rest ++ 46 :: e) with
        | some i => some (i + 1)
        | none => if c = 46 then some 0 else none := rfl
    rw [List.cons_append, hm, ih]
    simp

theorem map_pointwise_of_map_eq {f : Nat → Nat} (l : List Nat)
    (h : l.map f = l) : ∀ c ∈ l, f c = c := by
  induction l with
  | nil =>
    intro c hc
    cases hc
  | cons a rest ih =>
    rw [List.map_cons, List.cons.injEq] at h
    intro c hc
    rcases List.mem_cons.mp hc with rfl | hm
    · exact h.1
    · exact ih h.2 c hm

theorem upch_fix_32 : upch 32 = 32 := by decide

theorem upch_fix_46 : upch 46 = 46 := by decide

theorem upch_eq_126_iff (c : Nat) : upch c = 126 ↔ c = 126 := by
  unfold upch
  split
  · constructor
    · intro h
      omega
    · intro h
      omega
  · exact Iff.rfl

theorem upch_eq_46_iff (c : Nat) : upch c = 46 ↔ c = 46 := by
  unfold upch
  split
  · constructor
    · intro h
      omega
    · intro h
      omega
  · exact Iff.rfl

theorem upch_eq_32_iff (c : Nat) : upch c = 32 ↔ c = 32 := by
  unfold upch
  split
  · constructor
    · intro h
      omega
    · intro h
      omega
  · exact Iff.rfl

theorem dotRepl_eq_126_iff (c : Nat) :
    (if c = 46 then 95 else c) = 126 ↔ c = 126 := by
  split
  · constructor
    · intro h
      omega
    · intro h
      omega
  · exact Iff.rfl

theorem collapseIdx_stops (f : List Nat) (m : Nat)
    (hch : f.getD (m + 1) 0 ≠ 32) :
    collapseIdx f (m + 2) = m + 2 := by
  unfold collapseIdx
  rw [if_pos hch]

theorem collapseIdx_padded (f : List Nat) (n k : Nat)
    (hsp : ∀ j, n + 1 ≤ j → j < n + 1 + k → f.getD j 0 = 32)
    (hlast : f.getD n 0 ≠ 32 ∨ n = 0) :
    collapseIdx f (n + 1 + k) = n + 1 := by
  induction k with
  | zero =>
    cases n with
    | zero => rfl
    | succ m =>
      rcases hlast with h | h
      · exact collapseIdx_stops f m h
      · cases h
  | succ k ih =>
    have harr : n + 1 + (k + 1) = n + k + 2 := by omega
    rw [harr]
    unfold collapseIdx
    rw [if_neg (by
      have h32 := hsp (n + 1 + k) (by omega) (by omega)
      rw [show n + 1 + k = n + k + 1 by omega] at h32
      exact fun hne => hne h32)]
    have harr3 : n + k + 1 = n + 1 + k := by omega
    rw [harr3]
    exact ih (fun j h1 h2 => hsp j h1 (by omega))

/-- Symbolic evaluation of `make_client_fname` on a regular file name with
its last dot after position 0: writing the name as `b ++ 46 :: e` with
`46 ∉ e`, the translation builds the base from `b`, the extension from `e`,
and joins them with a literal dot. -/
theorem make_client_fname_dotted (base_len ext_len : Nat)
    (pad_fn tildes upcase dme_en : Bool) (b e : List Nat)
    (hbne : b ≠ []) (hb0 : 0 < base_len)
    (he0 : 0 < ext_len) (h46e : 46 ∉ e)
    (hsz : base_len + 1 + ext_len ≤ 255)
    (hxlen : b.length + 1 + e.length ≤ 255) :
    make_client_fname base_len ext_len pad_fn tildes upcase dme_en
        (b ++ 46 :: e) 0 =
      (let bl := if b.length < base_len then b.length else base_len
       let bn0 := (b.take bl).map fun c => if c = 46 then 95 else c
       let tcond := if tildes = true then decide (bl < b.length)
         else decide (base_len + 1 + ext_len < b.length + 1 + e.length)
       let bn1 := if tcond = true then bn0.set (bl - 1) 126 else bn0
       let el := min e.length ext_len
       let en1 := if tildes = true ∧ el < e.length then
           (e.take el).set (el - 1) 126 else e.take el
       let full := ((if pad_fn = true then padTrunc base_len bn1 else bn1).take
           (TPDD_FILENAME_LEN - 1) ++ [46]) ++ en1.take el
       if upcase = true then full.map upch else full) := by
  have hblen : 0 < b.length := List.length_pos.mpr hbne
  have hne0 : ¬ b.length = 0 := by omega
  have hdp : lastDotIdx (b ++ 46 :: e) = b.length := by
    unfold lastDotIdx
    rw [lastDotAux_append b e h46e]
    rfl
  have hxl : (b ++ 46 :: e).length = b.length + 1 + e.length := by
    simp
    omega
  have hil : (b ++ 46 :: e).length % 256 = b.length + 1 + e.length := by
    rw [hxl]
    omega
  have hol : (base_len + if ext_len ≠ 0 then 1 + ext_len else 0) % 256 =
      base_len + 1 + ext_len := by
    rw [if_pos (by omega)]
    omega
  have hexf : ¬ (ext_len = 0) := by omega
  have hc0 : (¬ b.length = 0) = True := by
    rw [eq_iff_iff]
    exact iff_true_intro hne0
  have hc3 : (dme_en = true ∧ (0 : Nat) % 2 = 1) = False := by
    rw [eq_iff_iff]
    simp
  have hflag : decide ((0 : Nat) % 2 = 1) = false := by decide
  have htk : (b ++ 46 :: e).take
      (if b.length < base_len then b.length else base_len) =
      b.take (if b.length < base_len then b.length else base_len) :=
    List.take_append_of_le_length (by split <;> omega)
  have hx9 : (b.length + 1 + e.length + 256 - (b.length + 1)) % 256 =
      e.length := by omega
  have hdr : (b ++ 46 :: e).drop (b.length + 1) = e := by
    rw [List.drop_append_eq_append_drop]
    simp
  unfold make_client_fname
  simp only [hil, hdp, hol]
  simp only [if_neg hexf, if_pos (rfl : (0 : Nat) = 0)]
  simp only [ne_eq, hc0, not_true_eq_false, not_false_eq_true, if_true,
    true_and, and_true, true_or, hc3, if_false, hflag, Bool.false_and,
    Bool.or_false]
  have hc6 : (base_len = 0) = False := by
    rw [eq_iff_iff]
    simp
    omega
  simp only [htk, hx9, hdr, hc6, if_false]
  simp [upch_fix_46]

theorem map_eq_self_of_pointwise (f : Nat → Nat) (l : List Nat)
    (h : ∀ c ∈ l, f c = c) : l.map f = l := by
  induction l with
  | nil => rfl
  | cons a t ih =>
    rw [List.map_cons, h a (by simp), ih (fun c hc => h c (by simp [hc]))]

theorem getD_append_l (l1 l2 : List Nat) (n : Nat) (h : n < l1.length) :
    (l1 ++ l2).getD n 0 = l1.getD n 0 := by
  simp [List.getD_eq_getElem?_getD, List.getElem?_append_left h]

theorem getD_append_r (l1 l2 : List Nat) (n : Nat) (h : l1.length ≤ n) :
    (l1 ++ l2).getD n 0 = l2.getD (n - l1.length) 0 := by
  simp [List.getD_eq_getElem?_getD, List.getElem?_append_right h]

/-- When base and extension both fit their fields, the translation is just
padding (when enabled) plus the dot: no tilde, no truncation. -/
theorem make_client_fname_fits (base_len ext_len : Nat)
    (pad_fn tildes upcase dme_en : Bool) (b e : List Nat)
    (hbne : b ≠ []) (hbl : b.length ≤ base_len) (hb23 : base_len ≤ 23)
    (hel : e.length ≤ ext_len) (he0 : 0 < ext_len)
    (h46b : 46 ∉ b) (h46e : 46 ∉ e)
    (hsz : base_len + 1 + ext_len ≤ 255)
    (hupw : upcase = true → ∀ c ∈ b ++ 46 :: e, upch c = c) :
    make_client_fname base_len ext_len pad_fn tildes upcase dme_en
        (b ++ 46 :: e) 0 =
      (if pad_fn = true then b ++ List.replicate (base_len - b.length) 32
       else b) ++ 46 :: e := by
  have hb0 : 0 < base_len := by
    have := List.length_pos.mpr hbne
    omega
  have hxlen : b.length + 1 + e.length ≤ 255 := by omega
  rw [make_client_fname_dotted base_len ext_len pad_fn tildes upcase dme_en
    b e hbne hb0 he0 h46e hsz hxlen]
  have hble : (if b.length < base_len then b.length else base_len) =
      b.length := by
    split <;> omega
  have hmapb : b.map (fun c => if c = 46 then 95 else c) = b := by
    apply map_eq_self_of_pointwise
    intro c hc
    rw [if_neg]
    intro h
    subst h
    exact h46b hc
  have htc : (if tildes = true then decide (b.length < b.length)
      else decide (base_len + 1 + ext_len < b.length + 1 + e.length)) =
      false := by
    split
    · simp
    · simp
      omega
  have hen : (tildes = true ∧ e.length < e.length) = False := by
    rw [eq_iff_iff]
    simp
  have hmin : min e.length ext_len = e.length := min_eq_left hel
  simp only [hble, hmin, List.take_length, hmapb]
  simp only [htc, Bool.false_eq_true, if_false]
  simp only [hen, if_false]
  simp only [List.take_length]
  have hfull : List.take (TPDD_FILENAME_LEN - 1)
      (if pad_fn = true then padTrunc base_len b else b) ++ [46] ++ e =
      (if pad_fn = true then b ++ List.replicate (base_len - b.length) 32
       else b) ++ 46 :: e := by
    have hpt : padTrunc base_len b =
        b ++ List.replicate (base_len - b.length) 32 := by
      unfold padTrunc
      rw [List.take_of_length_le hbl]
    have htk23 : (if pad_fn = true then padTrunc base_len b else b).take
        (TPDD_FILENAME_LEN - 1) =
        (if pad_fn = true then padTrunc base_len b else b) := by
      apply List.take_of_length_le
      split
      · unfold padTrunc
        simp [List.length_take, TPDD_FILENAME_LEN]
        omega
      · simp [TPDD_FILENAME_LEN]
        omega
    rw [htk23, hpt]
    split <;> simp
  by_cases hu : upcase = true
  · rw [if_pos hu]
    have hmapfull : (List.take (TPDD_FILENAME_LEN - 1)
        (if pad_fn = true then padTrunc base_len b else b) ++ [46] ++ e).map
          upch =
        List.take (TPDD_FILENAME_LEN - 1)
          (if pad_fn = true then padTrunc base_len b else b) ++ [46] ++ e := by
      apply map_eq_self_of_pointwise
      intro c hc
      have hup := hupw hu
      rcases List.mem_append.mp hc with hc1 | hce
      · rcases List.mem_append.mp hc1 with hc2 | hdot
        · have hc3 := List.mem_of_mem_take hc2
          by_cases hp : pad_fn = true
          · rw [if_pos hp] at hc3
            unfold padTrunc at hc3
            rcases List.mem_append.mp hc3 with hc4 | hc5
            · exact hup c (List.mem_append.mpr (Or.inl (List.mem_of_mem_take hc4)))
            · rw [List.eq_of_mem_replicate hc5]
              exact upch_fix_32
          · rw [if_neg hp] at hc3
            exact hup c (List.mem_append.mpr (Or.inl hc3))
        · rw [List.mem_singleton.mp hdot]
          exact upch_fix_46
      · exact hup c (List.mem_append.mpr (Or.inr (List.mem_cons_of_mem _ hce)))
    rw [hmapfull]
    exact hfull
  · rw [if_neg hu]
    exact hfull

/-- C5 amended: `collapse(translate(x)) = x` holds for host names of the
form `base ++ '.' ++ ext` in which the dot is unique and not at position 0,
the base fits `base_len` (≤ 23) and the extension fits `ext_len`, the name
is unchanged by the profile's case folding, and — for padded profiles — the
extension field is at most 2 bytes wide (true of every built-in padded
profile), the base does not end in a space, and the extension is not the
directory marker `<>`.  Dotless names, lowercase names under an upcasing
profile, and multi-dot names do not round-trip (see the counterexample). -/
theorem collapse_translate_roundtrip (base_len ext_len : Nat)
    (pad_fn tildes upcase dme_en : Bool) (b e : List Nat)
    (hbne : b ≠ []) (hbl : b.length ≤ base_len) (hb23 : base_len ≤ 23)
    (hel : e.length ≤ ext_len) (he0 : 0 < ext_len)
    (h46b : 46 ∉ b) (h46e : 46 ∉ e) (h0e : 0 ∉ e)
    (hsz : base_len + 1 + ext_len ≤ 255)
    (hupw : upcase = true → ∀ c ∈ b ++ 46 :: e, upch c = c)
    (hpad : pad_fn = true →
      ext_len ≤ 2 ∧ b.getLast? ≠ some 32 ∧ e ≠ [60, 62]) :
    collapse_padded_fname pad_fn base_len
        (make_client_fname base_len ext_len pad_fn tildes upcase dme_en
          (b ++ 46 :: e) 0) = b ++ 46 :: e := by
  rw [make_client_fname_fits base_len ext_len pad_fn tildes upcase dme_en b e
    hbne hbl hb23 hel he0 h46b h46e hsz hupw]
  cases pad_fn with
  | false =>
    unfold collapse_padded_fname
    rw [if_pos (Or.inl rfl)]
    simp
  | true =>
    obtain ⟨hext2, hblast, hedir⟩ := hpad rfl
    have hb0 : 0 < b.length := List.length_pos.mpr hbne
    simp only [if_pos rfl]
    have hPlen : (b ++ List.replicate (base_len - b.length) 32).length =
        base_len := by
      simp
      omega
    have hcond : ¬ (e.getD 0 0 = 60 ∧ e.getD 1 0 = 62) := by
      rcases e with _ | ⟨a, _ | ⟨a2, t⟩⟩
      · intro h
        have := h.1
        simp [List.getD_eq_getElem?_getD] at this
      · intro h
        have := h.2
        simp [List.getD_eq_getElem?_getD] at this
      · have ht : t = [] := by
          simp at hel
          exact List.eq_nil_of_length_eq_zero (by omega)
        subst ht
        intro h
        apply hedir
        simp [List.getD_eq_getElem?_getD] at h
        simp [h.1, h.2]
    have hcst : cstr3 46 (e.getD 0 0) (e.getD 1 0) = 46 :: e := by
      rcases e with _ | ⟨a, _ | ⟨a2, t⟩⟩
      · rfl
      · have ha : a ≠ 0 := fun h => h0e (by simp [h])
        simp [cstr3, List.getD_eq_getElem?_getD, ha]
      · have ht : t = [] := by
          simp at hel
          exact List.eq_nil_of_length_eq_zero (by omega)
        subst ht
        have ha : a ≠ 0 := fun h => h0e (by simp [h])
        have ha2 : a2 ≠ 0 := fun h => h0e (by simp [h])
        simp [cstr3, List.getD_eq_getElem?_getD, ha, ha2]
    have hgd0 : ((b ++ List.replicate (base_len - b.length) 32) ++
        46 :: e).getD base_len 0 = 46 := by
      rw [getD_append_r _ _ _ (by omega), hPlen]
      simp
    have hgd1 : ((b ++ List.replicate (base_len - b.length) 32) ++
        46 :: e).getD (base_len + 1) 0 = e.getD 0 0 := by
      rw [getD_append_r _ _ _ (by omega), hPlen]
      simp [List.getD_eq_getElem?_getD]
    have hgd2 : ((b ++ List.replicate (base_len - b.length) 32) ++
        46 :: e).getD (base_len + 2) 0 = e.getD 1 0 := by
      rw [getD_append_r _ _ _ (by omega), hPlen]
      simp [List.getD_eq_getElem?_getD]
    have hidx : collapseIdx ((b ++ List.replicate (base_len - b.length) 32) ++
        46 :: e) base_len = b.length := by
      have hres := collapseIdx_padded ((b ++ List.replicate
          (base_len - b.length) 32) ++ 46 :: e) (b.length - 1)
          (base_len - b.length)
          (by
            intro j hj1 hj2
            rw [getD_append_l _ _ _ (by rw [hPlen]; omega)]
            rw [getD_append_r _ _ _ (by omega)]
            simp [List.getD_eq_getElem?_getD, List.getElem?_replicate,
              show j - b.length < base_len - b.length by omega])
          (by
            left
            rw [getD_append_l _ _ _ (by rw [hPlen]; omega)]
            rw [getD_append_l _ _ _ (by omega)]
            intro h32
            apply hblast
            have hlt : b.length - 1 < b.length := by omega
            rw [List.getLast?_eq_getElem?]
            rw [List.getD_eq_getElem?_getD, List.getElem?_eq_getElem hlt] at h32
            rw [List.getElem?_eq_getElem hlt]
            simp at h32
            simp [h32])
      have harr : base_len = (b.length - 1) + 1 + (base_len - b.length) := by
        omega
      nth_rewrite 2 [harr]
      rw [hres]
      omega
    have htake : ((b ++ List.replicate (base_len - b.length) 32) ++
        46 :: e).take b.length = b := by
      rw [List.take_append_of_le_length (by rw [hPlen]; omega)]
      rw [List.take_append_of_le_length (le_refl _)]
      exact List.take_length _
    unfold collapse_padded_fname
    rw [if_neg (by simp; omega)]
    simp only [eq_self_iff_true, if_true,
      show DME_DIR_LABEL.getD 0 0 = (60 : Nat) from rfl,
      show DME_DIR_LABEL.getD 1 0 = (62 : Nat) from rfl]
    simp only [hidx, hgd0, hgd1, hgd2]
    rw [if_neg (by
      intro h
      exact hcond ⟨h.1, h.2⟩)]
    rw [htake, hcst]

/-- C5 amended witness: the k85 translation of "FOO.CO" collapses back to
"FOO.CO". -/
theorem collapse_translate_roundtrip_witness :
    collapse_padded_fname true 6
        (make_client_fname 6 2 true true true true
          ([70, 79, 79] ++ 46 :: [67, 79]) 0) =
      [70, 79, 79] ++ 46 :: [67, 79] := by
  exact collapse_translate_roundtrip 6 2 true true true true [70, 79, 79]
    [67, 79] (by decide) (by decide) (by decide) (by decide) (by decide)
    (by decide) (by decide) (by decide) (by decide)
    (fun _ => by decide) (fun _ => by decide)

/-! ### Segment extraction lemmas for the tilde-marking theorem -/

theorem upch_fix_126 : upch 126 = 126 := by decide

theorem mem_of_getLast?_eq (l : List Nat) (c : Nat) (h : l.getLast? = some c) :
    c ∈ l := by
  rw [List.getLast?_eq_getElem?] at h
  exact List.getElem?_mem h

theorem takeWhile_append_dot (l1 l2 : List Nat) (h : 46 ∉ l1) :
    (l1 ++ 46 :: l2).takeWhile (fun c => c ≠ 46) = l1 := by
  induction l1 with
  | nil => simp [List.takeWhile]
  | cons a t ih =>
    have ha : a ≠ 46 := fun hh => h (by simp [hh])
    have iht := ih (fun hm => h (by simp [hm]))
    simp only [List.cons_append, List.takeWhile]
    simp only [ne_eq, decide_not] at iht ⊢
    simp [ha, iht]

theorem takeWhile_map_upch (l : List Nat) :
    (l.map upch).takeWhile (fun c => c ≠ 46) =
      (l.takeWhile (fun c => c ≠ 46)).map upch := by
  induction l with
  | nil => rfl
  | cons a t ih =>
    by_cases ha : a = 46
    · subst ha
      simp [List.takeWhile, upch_fix_46]
    · have hu : upch a ≠ 46 := fun hh => ha ((upch_eq_46_iff a).mp hh)
      have iht := ih
      simp only [List.map_cons, List.takeWhile]
      simp only [ne_eq, decide_not] at iht ⊢
      simp [ha, hu, iht]

theorem dropWhile_sp_map_upch (l : List Nat) :
    (l.map upch).dropWhile (fun c => c = 32) =
      (l.dropWhile (fun c => c = 32)).map upch := by
  induction l with
  | nil => rfl
  | cons a t ih =>
    by_cases ha : a = 32
    · subst ha
      simp [List.dropWhile, upch_fix_32, ih]
    · have hu : upch a ≠ 32 := fun hh => ha ((upch_eq_32_iff a).mp hh)
      simp [List.dropWhile, ha, hu]

theorem stripTrailSp_map_upch (l : List Nat) :
    stripTrailSp (l.map upch) = (stripTrailSp l).map upch := by
  unfold stripTrailSp
  rw [← List.map_reverse, dropWhile_sp_map_upch, ← List.map_reverse]

theorem stripTrailSp_append_rep (l : List Nat) (k : Nat) :
    stripTrailSp (l ++ List.replicate k 32) = stripTrailSp l := by
  unfold stripTrailSp
  rw [List.reverse_append, List.reverse_replicate]
  congr 1
  induction k with
  | zero => simp
  | succ k ih =>
    rw [List.replicate_succ, List.cons_append, List.dropWhile_cons]
    simp [ih]

theorem stripTrailSp_last_ne (l : List Nat) (a : Nat) (ha : a ≠ 32) :
    stripTrailSp (l ++ [a]) = l ++ [a] := by
  unfold stripTrailSp
  rw [List.reverse_append]
  simp only [List.reverse_cons, List.reverse_nil, List.nil_append,
    List.singleton_append, List.dropWhile_cons]
  simp [ha]

theorem stripTrailSp_sublist (l : List Nat) : (stripTrailSp l).Sublist l := by
  unfold stripTrailSp
  have h := List.dropWhile_sublist (l := l.reverse) (fun c => decide (c = 32))
  have h2 := h.reverse
  simpa using h2

theorem getLast?_map_eq_126 (l : List Nat) :
    ((l.map upch).getLast? = some 126) ↔ (l.getLast? = some 126) := by
  rw [List.getLast?_map]
  cases h : l.getLast? with
  | none => simp
  | some c =>
    constructor
    · intro hh
      simp only [Option.map_some] at hh
      have hc : upch c = 126 := by
        injection hh
      rw [(upch_eq_126_iff c).mp hc]
    · intro hh
      have hc : c = 126 := by
        injection hh
      subst hc
      simp [upch_fix_126]

/-- Symbolic evaluation of `make_client_fname` on a name with no dot past
position 0 (`lastDotIdx = 0`): the whole name is the base; the extension
field is empty; the dot is appended only for padded profiles (this is the
branch with the surprising tilde behavior). -/
theorem make_client_fname_dotless (base_len ext_len : Nat)
    (pad_fn tildes upcase dme_en : Bool) (x : List Nat)
    (hdp : lastDotIdx x = 0) (hb0 : 0 < base_len) (he0 : 0 < ext_len)
    (hsz : base_len + 1 + ext_len ≤ 255) (hlen : x.length ≤ 255) :
    make_client_fname base_len ext_len pad_fn tildes upcase dme_en x 0 =
      (let bn0 := (x.take base_len).map fun c => if c = 46 then 95 else c
       let bn1 := if base_len + 1 + ext_len < x.length then
           bn0.set (base_len - 1) 126 else bn0
       let full := (if pad_fn = true then padTrunc base_len bn1
           else bn1).take (TPDD_FILENAME_LEN - 1) ++
         (if pad_fn = true then [46] else [])
       if upcase = true then full.map upch else full) := by
  have hil : x.length % 256 = x.length := by omega
  have hol : (base_len + if ext_len ≠ 0 then 1 + ext_len else 0) % 256 =
      base_len + 1 + ext_len := by
    rw [if_pos (by omega)]
    omega
  have hexf : ¬ (ext_len = 0) := by omega
  have hc3 : (dme_en = true ∧ (0 : Nat) % 2 = 1) = False := by
    rw [eq_iff_iff]
    simp
  have hflag : decide ((0 : Nat) % 2 = 1) = false := by decide
  have hc6 : (base_len = 0) = False := by
    rw [eq_iff_iff]
    simp
    omega
  unfold make_client_fname
  simp only [hil, hdp, hol]
  simp only [if_neg hexf, if_pos (rfl : (0 : Nat) = 0)]
  simp only [ne_eq, not_true_eq_false, not_false_eq_true, false_and,
    and_false, if_false, false_or, hc3, hflag, Bool.false_and, Bool.or_false,
    hc6]
  simp

theorem lastDotAux_decomp (x : List Nat) (dp : Nat)
    (h : lastDotAux x = some dp) :
    dp < x.length ∧ x = x.take dp ++ 46 :: x.drop (dp + 1) ∧
      46 ∉ x.drop (dp + 1) := by
  induction x generalizing dp with
  | nil => cases h
  | cons c rest ih =>
    unfold lastDotAux at h
    cases hr : lastDotAux rest with
    | some i =>
      rw [hr] at h
      simp only [Option.some.injEq] at h
      subst h
      obtain ⟨h1, h2, h3⟩ := ih i hr
      refine ⟨by simp; omega, ?_, by simpa using h3⟩
      calc c :: rest = c :: (rest.take i ++ 46 :: rest.drop (i + 1)) := by
            rw [← h2]
        _ = (c :: rest).take (i + 1) ++ 46 :: (c :: rest).drop (i + 1 + 1) := by
            simp
    | none =>
      rw [hr] at h
      by_cases hc : c = 46
      · rw [if_pos hc] at h
        simp only [Option.some.injEq] at h
        subst h
        subst hc
        exact ⟨by simp, by simp, (lastDotAux_none_iff rest).mp hr⟩
      · rw [if_neg hc] at h
        cases h

/-- A field that optionally had a '~' written over its last byte ends (after
stripping pad spaces) in '~' exactly when the write happened, provided the
field itself cannot contain '~'. -/
theorem strip_getLast_iff (B : List Nat) (c : Bool) (h126 : 126 ∉ B)
    (hne : B ≠ []) :
    ((stripTrailSp (if c = true then B.set (B.length - 1) 126 else B)).getLast?
      = some 126) ↔ c = true := by
  cases c with
  | true =>
    simp only [if_pos rfl, eq_self_iff_true, if_true, iff_true]
    have hlt : B.length - 1 < B.length := by
      have := List.length_pos.mpr hne
      omega
    have hset : B.set (B.length - 1) 126 = B.take (B.length - 1) ++ [126] := by
      rw [List.set_eq_take_append_cons_drop, if_pos hlt]
      rw [List.drop_eq_nil_of_le (by omega)]
    rw [hset, stripTrailSp_last_ne _ _ (by decide)]
    simp [List.getLast?_concat]
  | false =>
    simp only [Bool.false_eq_true, if_false, iff_false]
    intro h
    have hmem : 126 ∈ stripTrailSp B := mem_of_getLast?_eq _ _ h
    exact h126 ((stripTrailSp_sublist B).mem hmem)

/-- Splitting the translated name at its separator dot: the base field is
everything before it (pad spaces stripped), the extension field after it;
case folding commutes with the split. -/
theorem segments_of_assembled (CORE EN : List Nat) (upc : Bool)
    (h46 : 46 ∉ CORE) :
    baseSegment (if upc = true then (((CORE ++ [46]) ++ EN).map upch)
        else ((CORE ++ [46]) ++ EN)) =
      (if upc = true then (stripTrailSp CORE).map upch
       else stripTrailSp CORE) ∧
    extSegment (if upc = true then (((CORE ++ [46]) ++ EN).map upch)
        else ((CORE ++ [46]) ++ EN)) =
      (if upc = true then EN.map upch else EN) := by
  have hshape : (CORE ++ [46]) ++ EN = CORE ++ 46 :: EN := by simp
  cases upc with
  | false =>
    simp only [Bool.false_eq_true, if_false, hshape]
    constructor
    · unfold baseSegment
      rw [takeWhile_append_dot _ _ h46]
    · unfold extSegment
      rw [takeWhile_append_dot _ _ h46]
      rw [List.drop_append_eq_append_drop]
      simp
  | true =>
    simp only [if_pos rfl, hshape]
    simp only [eq_self_iff_true, if_true]
    have hmap : (CORE ++ 46 :: EN).map upch =
        CORE.map upch ++ 46 :: EN.map upch := by
      simp [upch_fix_46]
    rw [hmap]
    have h46m : 46 ∉ CORE.map upch := by
      intro hm
      obtain ⟨c, hc, hcu⟩ := List.mem_map.mp hm
      exact h46 ((upch_eq_46_iff c).mp hcu ▸ hc)
    constructor
    · unfold baseSegment
      rw [takeWhile_append_dot _ _ h46m, stripTrailSp_map_upch]
    · unfold extSegment
      rw [takeWhile_append_dot _ _ h46m]
      rw [List.drop_append_eq_append_drop]
      simp

/-- The snprintf cap and the padding do not change the content of the base
field up to trailing spaces. -/
theorem strip_core (B : List Nat) (base_len : Nat) (p : Bool)
    (hb : B.length ≤ base_len) (h23 : base_len ≤ 23) :
    stripTrailSp ((if p = true then padTrunc base_len B else B).take
      (TPDD_FILENAME_LEN - 1)) = stripTrailSp B := by
  have htk : (if p = true then padTrunc base_len B else B).take
      (TPDD_FILENAME_LEN - 1) = (if p = true then padTrunc base_len B else B) := by
    apply List.take_of_length_le
    split
    · unfold padTrunc
      simp [List.length_take, TPDD_FILENAME_LEN]
      omega
    · simp [TPDD_FILENAME_LEN]
      omega
  rw [htk]
  cases p with
  | false => simp
  | true =>
    simp only [if_pos rfl, eq_self_iff_true, if_true]
    unfold padTrunc
    rw [List.take_of_length_le hb, stripTrailSp_append_rep]

theorem base_field_tilde_iff (B0 : List Nat) (base_len : Nat) (p cc : Bool)
    (h126 : 126 ∉ B0) (hne : B0 ≠ []) (hlen : B0.length ≤ base_len)
    (h23 : base_len ≤ 23) :
    ((stripTrailSp ((if p = true then padTrunc base_len
        (if cc = true then B0.set (B0.length - 1) 126 else B0)
      else (if cc = true then B0.set (B0.length - 1) 126 else B0)).take
        (TPDD_FILENAME_LEN - 1))).getLast? = some 126) ↔ cc = true := by
  rw [strip_core _ _ _ (by split <;> simp [hlen]) h23]
  exact strip_getLast_iff B0 cc h126 hne

theorem set_last_getLast_iff (B : List Nat) (c : Bool) (h126 : 126 ∉ B)
    (hne : B ≠ []) :
    (((if c = true then B.set (B.length - 1) 126 else B).getLast?) =
      some 126) ↔ c = true := by
  cases c with
  | true =>
    simp only [if_pos rfl, eq_self_iff_true, if_true, iff_true]
    have hlt : B.length - 1 < B.length := by
      have := List.length_pos.mpr hne
      omega
    have hset : B.set (B.length - 1) 126 = B.take (B.length - 1) ++ [126] := by
      rw [List.set_eq_take_append_cons_drop, if_pos hlt]
      rw [List.drop_eq_nil_of_le (by omega)]
    rw [hset]
    simp [List.getLast?_concat]
  | false =>
    simp only [Bool.false_eq_true, if_false, iff_false]
    intro h
    exact h126 (mem_of_getLast?_eq _ _ h)

/-- C4 amended: write `sz := base_len + 1 + ext_len` (the full output width)
and `dp := lastDotIdx x`.  For a host name whose last dot sits at `dp > 0`:
with tilde-marking enabled, the base field of the translation ends in '~'
iff the base exceeds `base_len`, but with tilde-marking *disabled* the base
field still ends in '~' iff the whole name is longer than `sz`; the
extension field ends in '~' iff tilde-marking is enabled and the extension
exceeds `ext_len`.  For a dotless name (`dp = 0`) a '~' appears in the
translation iff the name is longer than `sz` — entirely independent of the
tilde-marking switch. -/
theorem tilde_marking_behavior (base_len ext_len : Nat)
    (pad_fn tildes upcase dme_en : Bool) (x : List Nat)
    (hb0 : 0 < base_len) (hb23 : base_len ≤ 23) (he0 : 0 < ext_len)
    (hsz : base_len + 1 + ext_len ≤ 255) (hlen : x.length ≤ 255)
    (h126 : 126 ∉ x) :
    (0 < lastDotIdx x →
      (((baseSegment (make_client_fname base_len ext_len pad_fn tildes upcase
          dme_en x 0)).getLast? = some 126) ↔
        ((tildes = true ∧ base_len < lastDotIdx x) ∨
         (tildes = false ∧ base_len + 1 + ext_len < x.length))) ∧
      (((extSegment (make_client_fname base_len ext_len pad_fn tildes upcase
          dme_en x 0)).getLast? = some 126) ↔
        (tildes = true ∧ ext_len + lastDotIdx x + 1 < x.length))) ∧
    (lastDotIdx x = 0 →
      ((126 ∈ make_client_fname base_len ext_len pad_fn tildes upcase dme_en
          x 0) ↔ base_len + 1 + ext_len < x.length)) := by
  constructor
  · intro hdp0
    obtain ⟨dp, hdx⟩ : ∃ dp, lastDotAux x = some dp := by
      cases h : lastDotAux x with
      | none =>
        rw [lastDotIdx, h] at hdp0
        cases hdp0
      | some d => exact ⟨d, rfl⟩
    have hdpv : lastDotIdx x = dp := by
      rw [lastDotIdx, hdx]
      rfl
    have hdp' : 0 < dp := by
      rw [hdpv] at hdp0
      exact hdp0
    obtain ⟨hdlt, hxeq, h46e⟩ := lastDotAux_decomp x dp hdx
    have hblen : (x.take dp).length = dp := by
      simp [List.length_take]
      omega
    have hbne : x.take dp ≠ [] := by
      intro h
      rw [h] at hblen
      simp at hblen
      omega
    have helen : (x.drop (dp + 1)).length = x.length - dp - 1 := by
      simp [List.length_drop]
      omega
    have hxlen2 : x.length = dp + 1 + (x.drop (dp + 1)).length := by
      rw [helen]
      omega
    have h126b : 126 ∉ x.take dp :=
      fun hm => h126 (List.mem_of_mem_take hm)
    have h126e : 126 ∉ x.drop (dp + 1) :=
      fun hm => h126 (List.mem_of_mem_drop hm)
    have hout := make_client_fname_dotted base_len ext_len pad_fn tildes
      upcase dme_en (x.take dp) (x.drop (dp + 1)) hbne hb0 he0 h46e hsz
      (by rw [hblen, ← hxlen2]; exact hlen)
    rw [← hxeq] at hout
    rw [hdpv, hout]
    simp only [hblen]
    -- names for the assembled pieces
    set BL := if dp < base_len then dp else base_len with hBL
    have hBLb : BL ≤ dp := by
      rw [hBL]
      split <;> omega
    have hBLb2 : BL ≤ base_len := by
      rw [hBL]
      split <;> omega
    have hBL1 : 0 < BL := by
      rw [hBL]
      split <;> omega
    set BN0 := ((x.take dp).take BL).map
      (fun c => if c = 46 then 95 else c) with hBN0
    have hBN0len : BN0.length = BL := by
      rw [hBN0]
      simp [List.length_take]
      omega
    have h126BN0 : 126 ∉ BN0 := by
      intro hm
      rw [hBN0] at hm
      obtain ⟨c, hc, hcu⟩ := List.mem_map.mp hm
      have := (dotRepl_eq_126_iff c).mp hcu
      subst this
      exact h126b (List.mem_of_mem_take hc)
    have hBN0ne : BN0 ≠ [] := by
      intro h
      rw [h] at hBN0len
      simp at hBN0len
      omega
    set TC := (if tildes = true then decide (BL < dp)
      else decide (base_len + 1 + ext_len < dp + 1 +
        (x.drop (dp + 1)).length)) with hTC
    set EL := min (x.drop (dp + 1)).length ext_len with hEL
    have hELe : EL ≤ (x.drop (dp + 1)).length := by omega
    set EN1 := if tildes = true ∧ EL < (x.drop (dp + 1)).length then
        ((x.drop (dp + 1)).take EL).set (EL - 1) 126
      else (x.drop (dp + 1)).take EL with hEN1
    have hEN1len : EN1.length = EL := by
      rw [hEN1]
      split <;> simp [List.length_take] <;> omega
    have hENtk : EN1.take EL = EN1 :=
      List.take_of_length_le (by omega)
    set BN1 := if TC = true then BN0.set (BL - 1) 126 else BN0 with hBN1
    have hBN1len : BN1.length = BL := by
      rw [hBN1]
      split <;> simp [hBN0len]
    set CORE := ((if pad_fn = true then padTrunc base_len BN1 else BN1).take
      (TPDD_FILENAME_LEN - 1)) with hCORE
    have h46CORE : 46 ∉ CORE := by
      have hmBN0 : (46 : Nat) ∉ BN0 := by
        intro hmb0
        rw [hBN0] at hmb0
        obtain ⟨c, _, hcu⟩ := List.mem_map.mp hmb0
        revert hcu
        split
        · intro h
          omega
        · intro h
          omega
      have hmBN1 : (46 : Nat) ∉ BN1 := by
        intro hmb
        rw [hBN1] at hmb
        revert hmb
        split
        · intro hmb
          rcases List.mem_or_eq_of_mem_set hmb with h1 | h2
          · exact hmBN0 h1
          · omega
        · exact hmBN0
      intro hm
      rw [hCORE] at hm
      have hm2 := List.mem_of_mem_take hm
      revert hm2
      split
      · intro hm2
        unfold padTrunc at hm2
        rcases List.mem_append.mp hm2 with h1 | h2
        · exact hmBN1 (List.mem_of_mem_take h1)
        · have := List.eq_of_mem_replicate h2
          omega
      · exact hmBN1
    rw [hENtk]
    have hseg := segments_of_assembled CORE EN1 upcase h46CORE
    constructor
    · rw [hseg.1]
      have hup : ((if upcase = true then (stripTrailSp CORE).map upch
          else stripTrailSp CORE).getLast? = some 126) ↔
          ((stripTrailSp CORE).getLast? = some 126) := by
        split
        · exact getLast?_map_eq_126 _
        · exact Iff.rfl
      rw [hup]
      have hb' : (BN0.set (BL - 1) 126) = BN0.set (BN0.length - 1) 126 := by
        rw [hBN0len]
      rw [hCORE, hBN1, hb']
      rw [base_field_tilde_iff BN0 base_len pad_fn TC h126BN0 hBN0ne
        (by omega) hb23]
      rw [hTC]
      cases tildes with
      | true =>
        simp only [eq_self_iff_true, if_true, decide_eq_true_eq, true_and,
          Bool.true_eq_false, false_and, or_false]
        rw [hBL]
        split <;> omega
      | false =>
        simp only [Bool.false_eq_true, if_false, decide_eq_true_eq,
          false_and, false_or, eq_self_iff_true, true_and]
        omega
    · rw [hseg.2]
      have hup : ((if upcase = true then EN1.map upch else EN1).getLast? =
          some 126) ↔ (EN1.getLast? = some 126) := by
        split
        · exact getLast?_map_eq_126 _
        · exact Iff.rfl
      rw [hup]
      by_cases hc : tildes = true ∧ EL < (x.drop (dp + 1)).length
      · have hEL1 : 0 < EL := by
          rcases hc with ⟨_, hlt2⟩
          rw [hEL] at hlt2 ⊢
          omega
        have htklen : ((x.drop (dp + 1)).take EL).length = EL := by
          simp [List.length_take]
          omega
        have h126tk : 126 ∉ (x.drop (dp + 1)).take EL :=
          fun hm => h126e (List.mem_of_mem_take hm)
        have hne2 : (x.drop (dp + 1)).take EL ≠ [] := by
          intro h
          rw [h] at htklen
          simp at htklen
          omega
        rw [hEN1, if_pos hc]
        rw [show EL - 1 = ((x.drop (dp + 1)).take EL).length - 1 by
          rw [htklen]]
        rw [show (((x.drop (dp + 1)).take EL).set
            (((x.drop (dp + 1)).take EL).length - 1) 126) =
          (if true = true then ((x.drop (dp + 1)).take EL).set
            (((x.drop (dp + 1)).take EL).length - 1) 126
           else (x.drop (dp + 1)).take EL) from (if_pos rfl).symm]
        rw [set_last_getLast_iff _ true h126tk hne2]
        constructor
        · intro _
          exact ⟨hc.1, by rw [hEL] at hc; omega⟩
        · intro _
          rfl
      · rw [hEN1, if_neg hc]
        constructor
        · intro h
          exact absurd (List.mem_of_mem_take (mem_of_getLast?_eq _ _ h)) h126e
        · intro h
          exfalso
          apply hc
          refine ⟨h.1, ?_⟩
          have := h.2
          rw [hEL]
          omega
  · intro hdp
    rw [make_client_fname_dotless base_len ext_len pad_fn tildes upcase
      dme_en x hdp hb0 he0 hsz hlen]
    simp only []
    constructor
    · intro hmem
      by_contra hno
      rw [if_neg hno] at hmem
      have hmem2 : (126 : Nat) ∈ ((if pad_fn = true then padTrunc base_len
          ((x.take base_len).map fun c => if c = 46 then 95 else c)
        else ((x.take base_len).map fun c => if c = 46 then 95 else c)).take
          (TPDD_FILENAME_LEN - 1) ++ (if pad_fn = true then [46] else [])) := by
        revert hmem
        split
        · intro hmem
          obtain ⟨c, hc, hcu⟩ := List.mem_map.mp hmem
          rw [(upch_eq_126_iff c).mp hcu] at hc
          exact hc
        · exact id
      rcases List.mem_append.mp hmem2 with h1 | h2
      · have h3 := List.mem_of_mem_take h1
        have h4 : (126 : Nat) ∈ (x.take base_len).map
            (fun c => if c = 46 then 95 else c) := by
          revert h3
          split
          · intro h3
            unfold padTrunc at h3
            rcases List.mem_append.mp h3 with h5 | h6
            · exact List.mem_of_mem_take h5
            · have := List.eq_of_mem_replicate h6
              omega
          · exact id
        obtain ⟨c, hc, hcu⟩ := List.mem_map.mp h4
        have := (dotRepl_eq_126_iff c).mp hcu
        subst this
        exact h126 (List.mem_of_mem_take hc)
      · revert h2
        split
        · intro h2
          have := List.mem_singleton.mp h2
          omega
        · intro h2
          cases h2
    · intro hlt
      rw [if_pos hlt]
      have hmln : ((x.take base_len).map
          (fun c => if c = 46 then 95 else c)).length = base_len := by
        simp [List.length_take]
        omega
      have hsln : (((x.take base_len).map
          (fun c => if c = 46 then 95 else c)).set (base_len - 1) 126).length =
          base_len := by
        rw [List.length_set, hmln]
      have hmem : (126 : Nat) ∈ ((x.take base_len).map
          (fun c => if c = 46 then 95 else c)).set (base_len - 1) 126 := by
        rw [List.set_eq_take_append_cons_drop,
          if_pos (show base_len - 1 < ((x.take base_len).map
            (fun c => if c = 46 then 95 else c)).length by rw [hmln]; omega)]
        simp
      have hmemP : (126 : Nat) ∈ (if pad_fn = true then padTrunc base_len
          (((x.take base_len).map fun c => if c = 46 then 95 else c).set
            (base_len - 1) 126)
        else (((x.take base_len).map fun c => if c = 46 then 95 else c).set
            (base_len - 1) 126)) := by
        split
        · unfold padTrunc
          apply List.mem_append.mpr
          left
          rw [List.take_of_length_le (by rw [hsln])]
          exact hmem
        · exact hmem
      have hmemCore : (126 : Nat) ∈ (if pad_fn = true then padTrunc base_len
          (((x.take base_len).map fun c => if c = 46 then 95 else c).set
            (base_len - 1) 126)
        else (((x.take base_len).map fun c => if c = 46 then 95 else c).set
            (base_len - 1) 126)).take (TPDD_FILENAME_LEN - 1) := by
        rw [List.take_of_length_le]
        · exact hmemP
        · split
          · unfold padTrunc
            simp [List.length_take, TPDD_FILENAME_LEN]
            omega
          · rw [hsln, TPDD_FILENAME_LEN]
            omega
      have hmemFull : (126 : Nat) ∈ ((if pad_fn = true then padTrunc base_len
          (((x.take base_len).map fun c => if c = 46 then 95 else c).set
            (base_len - 1) 126)
        else (((x.take base_len).map fun c => if c = 46 then 95 else c).set
            (base_len - 1) 126)).take (TPDD_FILENAME_LEN - 1) ++
          (if pad_fn = true then [46] else [])) :=
        List.mem_append.mpr (Or.inl hmemCore)
      split
      · exact List.mem_map.mpr ⟨126, hmemFull, upch_fix_126⟩
      · exact hmemFull

theorem tilde_marking_behavior_witness :
    ((baseSegment (make_client_fname 6 2 true true false false
      [109, 121, 95, 108, 111, 110, 103, 95, 102, 105, 108, 101, 95, 110,
       97, 109, 101, 46, 116, 101, 120, 116] 0)).getLast? = some 126) ∧
    ((extSegment (make_client_fname 6 2 true true false false
      [109, 121, 95, 108, 111, 110, 103, 95, 102, 105, 108, 101, 95, 110,
       97, 109, 101, 46, 116, 101, 120, 116] 0)).getLast? = some 126) := by
  have h := tilde_marking_behavior 6 2 true true false false
    [109, 121, 95, 108, 111, 110, 103, 95, 102, 105, 108, 101, 95, 110,
     97, 109, 101, 46, 116, 101, 120, 116]
    (by decide) (by decide) (by decide) (by decide) (by decide) (by decide)
  exact ⟨((h.1 (by decide)).1).mpr (by decide),
    ((h.1 (by decide)).2).mpr (by decide)⟩

/-- C10: the delete handler issues the host `rmdir`/`unlink` call and answers
with the standard success packet `[0x12, 0x01, 0x00, 0xEC]` no matter whether
the host call succeeded: the OS-level result `osOk` never reaches the
protocol response. -/
theorem req_delete_always_success (name : List Nat) (isDir osOk : Bool) :
    (req_delete name isDir osOk).2 = ret_std ERR_SUCCESS ∧
      ret_std ERR_SUCCESS = [0x12, 0x01, 0x00, 0xEC] := by
  constructor
  · rfl
  · decide

end Dlplus
